import Mathlib

/-!
Shallow embedding of the numeris-rs Roman-numeral conversion library.

Strings are modelled as lists of Unicode code points (`List Nat`); Rust's
`u32` values are modelled as `Nat` (no arithmetic in the sources can
overflow, every operation is a comparison or a subtraction guarded by a
comparison).

The definitions follow, function by function:
  - src/numeris/src/lib.rs : the `ATOMS` table (`max_group` form), the
    `MIN_VALUE` / `MAX_VALUE` bounds, the `RomanNumeralError` enum;
  - src/src/lib.rs : the prototype `ATOMS` table (`allow_multiples` form);
  - src/src/itor.rs : `integer_to_roman`, `digit_extractor`, `DIGITS`,
    `VALUES_TO_SYMBOLS`;
  - src/src/rtoi.rs : `roman_to_integer`, `normalize_numeral`,
    `check_numeral_format`, `decompose_numeral` with its `ParseState` loop.
-/

instance {ε α : Type} [DecidableEq ε] [DecidableEq α] : DecidableEq (Except ε α) := fun x y =>
  match x, y with
  | .ok a, .ok b =>
    if h : a = b then isTrue (by rw [h]) else isFalse (fun hc => h (Except.ok.inj hc))
  | .error a, .error b =>
    if h : a = b then isTrue (by rw [h]) else isFalse (fun hc => h (Except.error.inj hc))
  | .ok _, .error _ => isFalse (fun hc => Except.noConfusion hc)
  | .error _, .ok _ => isFalse (fun hc => Except.noConfusion hc)

namespace Numeris

/-- Code points of a Lean string literal: the model of a Rust `&str`. -/
def str (s : String) : List Nat := s.toList.map Char.toNat

/-- The error enum `RomanNumeralError` of src/numeris/src/lib.rs
(four variants, two carrying the offending value, one the offending text). -/
inductive RomanNumeralError where
  | ValueTooLarge : Nat → RomanNumeralError
  | ValueTooSmall : Nat → RomanNumeralError
  | Unparsable : List Nat → RomanNumeralError
  | EmptyString : RomanNumeralError
deriving DecidableEq

/-- `MIN_VALUE` of src/numeris/src/lib.rs. -/
def MIN_VALUE : Nat := 1

/-- `MAX_VALUE` of src/numeris/src/lib.rs. -/
def MAX_VALUE : Nat := 3999

/-- The `RomanNumeral` record of src/numeris/src/lib.rs
(`value: u32`, `symbol: &'static str`, `max_group: u8`). -/
structure RomanNumeral where
  value : Nat
  symbol : List Nat
  max_group : Nat
deriving DecidableEq

/-- The 13-entry `ATOMS` table of src/numeris/src/lib.rs (`max_group` form). -/
def ATOMS : List RomanNumeral := [
  ⟨1000, str "M", 3⟩,
  ⟨900, str "CM", 1⟩,
  ⟨500, str "D", 1⟩,
  ⟨400, str "CD", 1⟩,
  ⟨100, str "C", 3⟩,
  ⟨90, str "XC", 1⟩,
  ⟨50, str "L", 1⟩,
  ⟨40, str "XL", 1⟩,
  ⟨10, str "X", 3⟩,
  ⟨9, str "IX", 1⟩,
  ⟨5, str "V", 1⟩,
  ⟨4, str "IV", 1⟩,
  ⟨1, str "I", 3⟩ ]

/-- The prototype `RomanNumeral` record of src/src/lib.rs
(`value: u32`, `symbol: &'static str`, `allow_multiples: bool`). -/
structure RomanNumeralProto where
  value : Nat
  symbol : List Nat
  allow_multiples : Bool
deriving DecidableEq

/-- The prototype 13-entry `ATOMS` table of src/src/lib.rs
(`allow_multiples` form). -/
def ATOMS_romanus : List RomanNumeralProto := [
  ⟨1000, str "M", true⟩,
  ⟨900, str "CM", false⟩,
  ⟨500, str "D", true⟩,
  ⟨400, str "CD", false⟩,
  ⟨100, str "C", true⟩,
  ⟨90, str "XC", false⟩,
  ⟨50, str "L", true⟩,
  ⟨40, str "XL", false⟩,
  ⟨10, str "X", true⟩,
  ⟨9, str "IX", false⟩,
  ⟨5, str "V", true⟩,
  ⟨4, str "IV", false⟩,
  ⟨1, str "I", true⟩ ]

/-! ## Encoder: src/src/itor.rs -/

/-- `DIGITS` of src/src/itor.rs: the atom values, descending. -/
def DIGITS : List Nat := ATOMS.map (fun rn => rn.value)

/-- `VALUES_TO_SYMBOLS` of src/src/itor.rs: the value-to-symbol map, as a
lookup in `ATOMS` (values are pairwise distinct, so the first match is the
unique one). -/
def VALUES_TO_SYMBOLS (digit : Nat) : Option (List Nat) :=
  (ATOMS.find? (fun rn => rn.value == digit)).map (fun rn => rn.symbol)

/-- `digit_extractor` of src/src/itor.rs. The Rust closure mutates the seed
and returns the extracted digit; here it returns the pair
(extracted digit, new seed), `none` when the seed is exhausted. -/
def digit_extractor (seed : Nat) : Option (Nat × Nat) :=
  if seed = 0 then none
  else
    let next_digit := (DIGITS.find? (fun digit => decide (digit ≤ seed))).getD 1
    some (next_digit, seed - next_digit)

/-- The stream `itertools::unfold(val, digit_extractor)` of src/src/itor.rs,
materialised as a list. The first argument is fuel; since every extracted
digit is at least 1 the seed strictly decreases, so fuel equal to the seed
itself is always enough (`unfoldDigits_fuel` below). Written with a bare
`Nat.rec` so that evaluation inside proofs unfolds one fuel layer per
extracted digit; `unfoldDigits_zero` and `unfoldDigits_succ` restate the
defining equations. -/
def unfoldDigits (fuel : Nat) (seed : Nat) : List Nat :=
  Nat.rec (motive := fun _ => Nat → List Nat)
    (fun _ => [])
    (fun _ ih s =>
      match digit_extractor s with
      | none => []
      | some (digit, rest) => digit :: ih rest)
    fuel seed

/-- The digit stream of `integer_to_roman` for a given value. -/
def extractDigits (seed : Nat) : List Nat := unfoldDigits seed seed

/-- `integer_to_roman` of src/src/itor.rs: bounds checks, then the unfolded
digit stream mapped through `VALUES_TO_SYMBOLS` and joined. -/
def integer_to_roman (val : Nat) : Except RomanNumeralError (List Nat) :=
  if val < MIN_VALUE then .error (.ValueTooSmall val)
  else if val > MAX_VALUE then .error (.ValueTooLarge val)
  else .ok (((extractDigits val).filterMap VALUES_TO_SYMBOLS).flatten)

/-! ## Decoder: src/src/rtoi.rs -/

/-- Rust's `char::is_whitespace` (the Unicode White_Space property), on code
points. -/
def isWhitespaceChar (c : Nat) : Bool :=
  (9 ≤ c && c ≤ 13) || c = 32 || c = 133 || c = 160 || c = 5760 ||
  (8192 ≤ c && c ≤ 8202) || c = 8232 || c = 8233 || c = 8239 || c = 8287 ||
  c = 12288

/-- Leading-whitespace removal (the front half of Rust's `str::trim`). -/
def trimLeft (s : List Nat) : List Nat := s.dropWhile isWhitespaceChar

/-- Trailing-whitespace removal (the back half of Rust's `str::trim`). -/
def trimRight (s : List Nat) : List Nat :=
  (s.reverse.dropWhile isWhitespaceChar).reverse

/-- Rust's `str::trim`: drop whitespace from both ends. -/
def trim (s : List Nat) : List Nat := trimRight (trimLeft s)

/-- Rust's `char::to_ascii_uppercase` on code points: map a-z to A-Z, leave
everything else unchanged. -/
def to_ascii_uppercase (c : Nat) : Nat :=
  if 97 ≤ c ∧ c ≤ 122 then c - 32 else c

/-- `normalize_numeral` of src/src/rtoi.rs: `numeral.trim().to_ascii_uppercase()`. -/
def normalize_numeral (numeral : List Nat) : List Nat :=
  (trim numeral).map to_ascii_uppercase

/-- The seven Roman symbol letters of the regex `^[IVXLCDM]+$`. -/
def romanChars : List Nat := str "IVXLCDM"

/-- `check_numeral_format` of src/src/rtoi.rs: empty input is
`EmptyString`; input failing the `^[IVXLCDM]+$` character class is
`Unparsable`; otherwise the text passes through. -/
def check_numeral_format (numeral : List Nat) : Except RomanNumeralError (List Nat) :=
  if numeral.length = 0 then .error .EmptyString
  else if numeral.all (fun c => romanChars.contains c) then .ok numeral
  else .error (.Unparsable numeral)

/-- One atom's turn of the `decompose_numeral` loop of src/src/rtoi.rs.
In the source the loop keeps the current atom after a match until
`group_size` (incremented by `remove_current`) reaches the atom's
`max_group`, then advances; here the same bounded repetition is expressed
with a quota counting down from `max_group`. Returns the recorded values
and the remaining text. -/
def consumeRep (value : Nat) (symbol : List Nat) : Nat → List Nat → List Nat × List Nat
  | 0, text => ([], text)
  | quota + 1, text =>
    if symbol.isPrefixOf text then
      let r := consumeRep value symbol quota (text.drop symbol.length)
      (value :: r.1, r.2)
    else ([], text)

/-- The `while !parse_state.is_complete()` loop of `decompose_numeral`
(src/src/rtoi.rs): the `ParseState` atom pointer advances monotonically,
so the loop is a single pass over the atom list, each atom consuming at
most `max_group` leading copies of its symbol. Returns the recorded
values and the unconsumed text. -/
def decomposeGo : List RomanNumeral → List Nat → List Nat × List Nat
  | [], text => ([], text)
  | rn :: rest, text =>
    let r := consumeRep rn.value rn.symbol rn.max_group text
    let r2 := decomposeGo rest r.2
    (r.1 ++ r2.1, r2.2)

/-- `decompose_numeral` of src/src/rtoi.rs: run the loop over `ATOMS`;
if unconsumed text remains the input is `Unparsable`, otherwise return the
recorded values. -/
def decompose_numeral (numeral : List Nat) : Except RomanNumeralError (List Nat) :=
  if (decomposeGo ATOMS numeral).2.length > 0 then .error (.Unparsable numeral)
  else .ok (decomposeGo ATOMS numeral).1

/-- `roman_to_integer` of src/src/rtoi.rs: normalize, check format,
decompose, sum the recorded values (`fold(digits, 0, |seed, &val| seed + val)`). -/
def roman_to_integer (numeral : List Nat) : Except RomanNumeralError Nat :=
  match check_numeral_format (normalize_numeral numeral) with
  | .error e => .error e
  | .ok n =>
    match decompose_numeral n with
    | .error e => .error e
    | .ok digits => .ok (digits.foldl (fun seed val => seed + val) 0)

/-! ## The decomposition step rule as one claim words it

The claim about the decomposition stage reads the source's stay-on-atom
rule as unbounded: stay on a repeatable atom for as long as the text keeps
matching, with no other repetition limit. The following pair of
definitions renders that reading, to be compared with `decompose_numeral`
above (which bounds the stay by the atom's `max_group`). -/

/-- Modelled from the claim wording (not from the source): consume leading
copies of `symbol` for as long as the text keeps matching, with no
repetition limit. Fuel (the text length at entry suffices, each match
strips at least one character). -/
def consumeUnbounded (value : Nat) (symbol : List Nat) : Nat → List Nat → List Nat × List Nat
  | 0, text => ([], text)
  | fuel + 1, text =>
    if symbol.isPrefixOf text then
      let r := consumeUnbounded value symbol fuel (text.drop symbol.length)
      (value :: r.1, r.2)
    else ([], text)

/-- Modelled from the claim wording (not from the source): the single pass
over the atom table in which a repeatable atom (one whose symbol may be
consumed consecutively more than once, `1 < max_group`) keeps consuming
with no repetition bound, and any other atom consumes at most once. -/
def decomposeClaimGo : List RomanNumeral → List Nat → List Nat × List Nat
  | [], text => ([], text)
  | rn :: rest, text =>
    let r :=
      if 1 < rn.max_group then consumeUnbounded rn.value rn.symbol text.length text
      else consumeRep rn.value rn.symbol 1 text
    let r2 := decomposeClaimGo rest r.2
    (r.1 ++ r2.1, r2.2)

/-- Modelled from the claim wording (not from the source): `decompose_numeral`
under the unbounded-repetition reading of the step rule. -/
def decompose_claim (numeral : List Nat) : Except RomanNumeralError (List Nat) :=
  if (decomposeClaimGo ATOMS numeral).2.length > 0 then .error (.Unparsable numeral)
  else .ok (decomposeClaimGo ATOMS numeral).1

/-! ## Substring occurrence -/

/-- `pat` occurs as a contiguous run somewhere in the list. -/
def containsSeq (pat : List Nat) : List Nat → Bool
  | [] => pat.isEmpty
  | c :: rest => pat.isPrefixOf (c :: rest) || containsSeq pat rest

/-- The forbidden subsequences of the canonical-form property. -/
def FORBIDDEN : List (List Nat) :=
  [str "IIII", str "VV", str "XXXX", str "LL", str "CCCC", str "DD", str "MMMM"]

/-! ## Decimal-digit blocks of the encoding

The greedy extraction of a value 1..3999 splits along its decimal digits:
the thousands digit contributes a block of M atoms, the hundreds digit one
of the ten hundreds patterns, and so on. The per-digit tables below are
related to `extractDigits` and `integer_to_roman` by the block lemmas
further down. -/

/-- Digit values extracted for the thousands digit. -/
def thousandsDig (a : Nat) : List Nat := List.replicate a 1000

/-- Digit values extracted for the hundreds digit. -/
def hundredsDig : Nat → List Nat
  | 0 => [] | 1 => [100] | 2 => [100, 100] | 3 => [100, 100, 100] | 4 => [400]
  | 5 => [500] | 6 => [500, 100] | 7 => [500, 100, 100] | 8 => [500, 100, 100, 100]
  | _ => [900]

/-- Digit values extracted for the tens digit. -/
def tensDig : Nat → List Nat
  | 0 => [] | 1 => [10] | 2 => [10, 10] | 3 => [10, 10, 10] | 4 => [40]
  | 5 => [50] | 6 => [50, 10] | 7 => [50, 10, 10] | 8 => [50, 10, 10, 10]
  | _ => [90]

/-- Digit values extracted for the units digit. -/
def unitsDig : Nat → List Nat
  | 0 => [] | 1 => [1] | 2 => [1, 1] | 3 => [1, 1, 1] | 4 => [4]
  | 5 => [5] | 6 => [5, 1] | 7 => [5, 1, 1] | 8 => [5, 1, 1, 1]
  | _ => [9]

/-- Symbol block emitted for the thousands digit. -/
def thousandsSym : Nat → List Nat
  | 0 => [] | 1 => str "M" | 2 => str "MM" | _ => str "MMM"

/-- Symbol block emitted for the hundreds digit. -/
def hundredsSym : Nat → List Nat
  | 0 => [] | 1 => str "C" | 2 => str "CC" | 3 => str "CCC" | 4 => str "CD"
  | 5 => str "D" | 6 => str "DC" | 7 => str "DCC" | 8 => str "DCCC"
  | _ => str "CM"

/-- Symbol block emitted for the tens digit. -/
def tensSym : Nat → List Nat
  | 0 => [] | 1 => str "X" | 2 => str "XX" | 3 => str "XXX" | 4 => str "XL"
  | 5 => str "L" | 6 => str "LX" | 7 => str "LXX" | 8 => str "LXXX"
  | _ => str "XC"

/-- Symbol block emitted for the units digit. -/
def unitsSym : Nat → List Nat
  | 0 => [] | 1 => str "I" | 2 => str "II" | 3 => str "III" | 4 => str "IV"
  | 5 => str "V" | 6 => str "VI" | 7 => str "VII" | 8 => str "VIII"
  | _ => str "IX"

/-- The four descending segments of `ATOMS`: the thousands atom, the
hundreds atoms, the tens atoms and the units atoms. -/
def G1 : List RomanNumeral := [⟨1000, str "M", 3⟩]

def G2 : List RomanNumeral :=
  [⟨900, str "CM", 1⟩, ⟨500, str "D", 1⟩, ⟨400, str "CD", 1⟩, ⟨100, str "C", 3⟩]

def G3 : List RomanNumeral :=
  [⟨90, str "XC", 1⟩, ⟨50, str "L", 1⟩, ⟨40, str "XL", 1⟩, ⟨10, str "X", 3⟩]

def G4 : List RomanNumeral :=
  [⟨9, str "IX", 1⟩, ⟨5, str "V", 1⟩, ⟨4, str "IV", 1⟩, ⟨1, str "I", 3⟩]

/-- The first characters a list may start with (true for the empty list):
used to track what a decomposition suffix can begin with. -/
def headOk (allowed : List Nat) (l : List Nat) : Bool :=
  match l.head? with
  | none => true
  | some c => allowed.contains c

/-! ## Defining equations of the fueled digit stream -/

theorem unfoldDigits_zero (seed : Nat) : unfoldDigits 0 seed = [] := rfl

theorem unfoldDigits_succ (fuel seed : Nat) :
    unfoldDigits (fuel + 1) seed =
      match digit_extractor seed with
      | none => []
      | some (digit, rest) => digit :: unfoldDigits fuel rest := rfl

/-! ## Normalization lemmas -/

theorem upper_idem (c : Nat) :
    to_ascii_uppercase (to_ascii_uppercase c) = to_ascii_uppercase c := by
  by_cases h : 97 ≤ c ∧ c ≤ 122
  · have h2 : ¬ (97 ≤ c - 32 ∧ c - 32 ≤ 122) := by omega
    simp only [to_ascii_uppercase, if_pos h, if_neg h2]
  · simp only [to_ascii_uppercase, if_neg h]

theorem ws_upper (c : Nat) :
    isWhitespaceChar (to_ascii_uppercase c) = isWhitespaceChar c := by
  by_cases h : 97 ≤ c ∧ c ≤ 122
  · have h1 : isWhitespaceChar (c - 32) = false := by
      simp only [isWhitespaceChar, Bool.or_eq_false_iff, Bool.and_eq_false_iff,
        decide_eq_false_iff_not]
      omega
    have h2 : isWhitespaceChar c = false := by
      simp only [isWhitespaceChar, Bool.or_eq_false_iff, Bool.and_eq_false_iff,
        decide_eq_false_iff_not]
      omega
    simp [to_ascii_uppercase, h, h1, h2]
  · simp [to_ascii_uppercase, h]

theorem map_upper_idem (l : List Nat) :
    (l.map to_ascii_uppercase).map to_ascii_uppercase = l.map to_ascii_uppercase := by
  rw [List.map_map]
  have h : to_ascii_uppercase ∘ to_ascii_uppercase = to_ascii_uppercase :=
    funext upper_idem
  rw [h]

theorem dropWhile_ws_map_upper (l : List Nat) :
    (l.map to_ascii_uppercase).dropWhile isWhitespaceChar
      = (l.dropWhile isWhitespaceChar).map to_ascii_uppercase := by
  rw [List.dropWhile_map]
  have h : (isWhitespaceChar ∘ to_ascii_uppercase) = isWhitespaceChar :=
    funext ws_upper
  rw [h]

theorem trimLeft_map_upper (l : List Nat) :
    trimLeft (l.map to_ascii_uppercase) = (trimLeft l).map to_ascii_uppercase :=
  dropWhile_ws_map_upper l

theorem trimRight_map_upper (l : List Nat) :
    trimRight (l.map to_ascii_uppercase) = (trimRight l).map to_ascii_uppercase := by
  unfold trimRight
  rw [← List.map_reverse, dropWhile_ws_map_upper, List.map_reverse]

theorem trim_map_upper (l : List Nat) :
    trim (l.map to_ascii_uppercase) = (trim l).map to_ascii_uppercase := by
  unfold trim
  rw [trimLeft_map_upper, trimRight_map_upper]

theorem trimRight_trimRight (l : List Nat) :
    trimRight (trimRight l) = trimRight l := by
  unfold trimRight
  rw [List.reverse_reverse, List.dropWhile_idempotent]

theorem head?_trimRight (x : List Nat) (c : Nat)
    (h : (trimRight x).head? = some c) : x.head? = some c := by
  have hpre : trimRight x <+: x := by
    obtain ⟨t, ht⟩ := List.dropWhile_suffix (l := x.reverse) isWhitespaceChar
    exact ⟨t.reverse, by rw [trimRight, ← List.reverse_append, ht, List.reverse_reverse]⟩
  obtain ⟨t, ht⟩ := hpre
  cases htr : trimRight x with
  | nil => rw [htr] at h; simp at h
  | cons a l2 =>
    rw [htr] at ht h
    rw [← ht]
    simpa using h

theorem head?_trimLeft_not_ws (x : List Nat) (c : Nat)
    (h : (trimLeft x).head? = some c) : isWhitespaceChar c = false := by
  have hw := List.head?_dropWhile_not isWhitespaceChar x
  rw [trimLeft] at h
  rw [h] at hw
  exact hw

theorem trimLeft_eq_self_of_head (l : List Nat)
    (h : ∀ c, l.head? = some c → isWhitespaceChar c = false) :
    trimLeft l = l := by
  cases l with
  | nil => rfl
  | cons a t =>
    have ha : isWhitespaceChar a = false := h a rfl
    rw [trimLeft, List.dropWhile_cons_of_neg]
    rw [ha]
    exact Bool.false_ne_true

theorem trim_trim (l : List Nat) : trim (trim l) = trim l := by
  have h1 : trimLeft (trim l) = trim l := by
    apply trimLeft_eq_self_of_head
    intro c hc
    exact head?_trimLeft_not_ws l c (head?_trimRight (trimLeft l) c hc)
  rw [trim, h1, trim, trimRight_trimRight]

theorem normalize_idem (s : List Nat) :
    normalize_numeral (normalize_numeral s) = normalize_numeral s := by
  unfold normalize_numeral
  rw [trim_map_upper, trim_trim, map_upper_idem]

/-! ## Error-shape lemmas -/

theorem decompose_ne_EmptyString (t : List Nat) :
    decompose_numeral t ≠ .error .EmptyString := by
  unfold decompose_numeral
  intro h
  split at h <;> simp at h

/-! ## Digit-extractor lemmas -/

theorem DIGITS_pos : ∀ x ∈ DIGITS, 1 ≤ x := by decide

theorem DIGITS_descending : DIGITS.Pairwise (fun a b => b ≤ a) := by decide

theorem find_max_of_descending {l : List Nat} {seed d : Nat}
    (hs : l.Pairwise (fun a b => b ≤ a))
    (hf : l.find? (fun x => decide (x ≤ seed)) = some d) :
    ∀ x ∈ l, x ≤ seed → x ≤ d := by
  induction l with
  | nil => simp at hf
  | cons a t ih =>
    rcases List.pairwise_cons.mp hs with ⟨ha, ht⟩
    by_cases hpa : a ≤ seed
    · rw [List.find?_cons_of_pos _ (by simpa using hpa)] at hf
      obtain rfl : a = d := by simpa using hf
      intro x hx hxs
      rcases List.mem_cons.mp hx with rfl | hx
      · exact Nat.le_refl _
      · exact ha x hx
    · rw [List.find?_cons_of_neg _ (by simpa using hpa)] at hf
      intro x hx hxs
      rcases List.mem_cons.mp hx with rfl | hx
      · exact absurd hxs hpa
      · exact ih ht hf x hx hxs

theorem digit_extractor_progress (seed : Nat) (hpos : 0 < seed) :
    ∃ d, digit_extractor seed = some (d, seed - d) ∧ 1 ≤ d ∧ d ≤ seed ∧
      ∀ x ∈ DIGITS, x ≤ seed → x ≤ d := by
  have hne : ¬ seed = 0 := by omega
  cases hf : DIGITS.find? (fun x => decide (x ≤ seed)) with
  | none =>
    exfalso
    have h1 := List.find?_eq_none.mp hf 1 (by decide)
    simp only [decide_eq_true_eq] at h1
    omega
  | some d =>
    refine ⟨d, ?_, ?_, ?_, ?_⟩
    · unfold digit_extractor
      rw [if_neg hne]
      simp [hf]
    · exact DIGITS_pos d (List.mem_of_find?_eq_some hf)
    · simpa using List.find?_some hf
    · exact find_max_of_descending DIGITS_descending hf

/-! ## Fuel lemmas for the digit stream -/

theorem unfoldDigits_agree (m : Nat) :
    ∀ f1 f2 : Nat, m ≤ f1 → m ≤ f2 → unfoldDigits f1 m = unfoldDigits f2 m := by
  induction m using Nat.strong_induction_on with
  | _ m ih =>
    intro f1 f2 h1 h2
    have hzero : digit_extractor 0 = none := rfl
    cases f1 with
    | zero =>
      cases f2 with
      | zero => rfl
      | succ f2 =>
        have hm : m = 0 := by omega
        subst hm
        rw [unfoldDigits_zero, unfoldDigits_succ, hzero]
    | succ f1 =>
      cases f2 with
      | zero =>
        have hm : m = 0 := by omega
        subst hm
        rw [unfoldDigits_zero, unfoldDigits_succ, hzero]
      | succ f2 =>
        rw [unfoldDigits_succ, unfoldDigits_succ]
        by_cases hm : m = 0
        · subst hm
          rw [hzero]
        · obtain ⟨d, hd, hd1, hd2, _⟩ := digit_extractor_progress m (by omega)
          rw [hd]
          have := ih (m - d) (by omega) f1 f2 (by omega) (by omega)
          simp only [this]

theorem extractDigits_zero : extractDigits 0 = [] := rfl

theorem extractDigits_step {m d : Nat}
    (hd : digit_extractor m = some (d, m - d)) (h1 : 1 ≤ d) (h2 : d ≤ m) :
    extractDigits m = d :: extractDigits (m - d) := by
  have hm1 : m = (m - 1) + 1 := by omega
  unfold extractDigits
  calc unfoldDigits m m = unfoldDigits ((m - 1) + 1) m := by rw [← hm1]
    _ = d :: unfoldDigits (m - 1) (m - d) := by rw [unfoldDigits_succ, hd]
    _ = d :: unfoldDigits (m - d) (m - d) := by
        rw [unfoldDigits_agree (m - d) (m - 1) (m - d) (by omega) (Nat.le_refl _)]

theorem foldl_add_init (l : List Nat) :
    ∀ i : Nat, l.foldl (fun a b => a + b) i = i + l.foldl (fun a b => a + b) 0 := by
  induction l with
  | nil => intro i; simp
  | cons x t ih =>
    intro i
    simp only [List.foldl_cons]
    rw [ih (i + x), ih (0 + x)]
    omega

/-- The greedy extraction ends at remainder 0: the extracted digits sum
back to the seed (for every seed, not only the conversion range). -/
theorem extractDigits_sum (m : Nat) :
    (extractDigits m).foldl (fun a b => a + b) 0 = m := by
  induction m using Nat.strong_induction_on with
  | _ m ih =>
    by_cases hm : m = 0
    · subst hm
      rfl
    · obtain ⟨d, hd, hd1, hd2, _⟩ := digit_extractor_progress m (by omega)
      rw [extractDigits_step hd hd1 hd2]
      simp only [List.foldl_cons]
      rw [foldl_add_init _ (0 + d), ih (m - d) (by omega)]
      omega

/-! ## Band lemmas: one greedy step per value band

In each band between consecutive atom values, `digit_extractor` picks the
band's atom value (the first entry of the descending `DIGITS` that does
not exceed the seed) and `extractDigits` peels it off. -/

theorem DIGITS_eq : DIGITS = [1000, 900, 500, 400, 100, 90, 50, 40, 10, 9, 5, 4, 1] := by
  decide

theorem step1000 {m : Nat} (h1 : 1000 ≤ m) :
    extractDigits m = 1000 :: extractDigits (m - 1000) := by
  refine extractDigits_step ?_ (by omega) (by omega)
  have hm : ¬ m = 0 := by omega
  unfold digit_extractor
  rw [if_neg hm, DIGITS_eq,
    List.find?_cons_of_pos _ (by simp only [decide_eq_true_eq]; omega)]
  rfl

theorem step900 {m : Nat} (h1 : 900 ≤ m) (h2 : m < 1000) :
    extractDigits m = 900 :: extractDigits (m - 900) := by
  refine extractDigits_step ?_ (by omega) (by omega)
  have hm : ¬ m = 0 := by omega
  unfold digit_extractor
  rw [if_neg hm, DIGITS_eq,
    List.find?_cons_of_neg _ (by simp only [decide_eq_true_eq]; omega),
    List.find?_cons_of_pos _ (by simp only [decide_eq_true_eq]; omega)]
  rfl

theorem step500 {m : Nat} (h1 : 500 ≤ m) (h2 : m < 900) :
    extractDigits m = 500 :: extractDigits (m - 500) := by
  refine extractDigits_step ?_ (by omega) (by omega)
  have hm : ¬ m = 0 := by omega
  unfold digit_extractor
  rw [if_neg hm, DIGITS_eq,
    List.find?_cons_of_neg _ (by simp only [decide_eq_true_eq]; omega),
    List.find?_cons_of_neg _ (by simp only [decide_eq_true_eq]; omega),
    List.find?_cons_of_pos _ (by simp only [decide_eq_true_eq]; omega)]
  rfl

theorem step400 {m : Nat} (h1 : 400 ≤ m) (h2 : m < 500) :
    extractDigits m = 400 :: extractDigits (m - 400) := by
  refine extractDigits_step ?_ (by omega) (by omega)
  have hm : ¬ m = 0 := by omega
  unfold digit_extractor
  rw [if_neg hm, DIGITS_eq,
    List.find?_cons_of_neg _ (by simp only [decide_eq_true_eq]; omega),
    List.find?_cons_of_neg _ (by simp only [decide_eq_true_eq]; omega),
    List.find?_cons_of_neg _ (by simp only [decide_eq_true_eq]; omega),
    List.find?_cons_of_pos _ (by simp only [decide_eq_true_eq]; omega)]
  rfl

theorem step100 {m : Nat} (h1 : 100 ≤ m) (h2 : m < 400) :
    extractDigits m = 100 :: extractDigits (m - 100) := by
  refine extractDigits_step ?_ (by omega) (by omega)
  have hm : ¬ m = 0 := by omega
  unfold digit_extractor
  rw [if_neg hm, DIGITS_eq,
    List.find?_cons_of_neg _ (by simp only [decide_eq_true_eq]; omega),
    List.find?_cons_of_neg _ (by simp only [decide_eq_true_eq]; omega),
    List.find?_cons_of_neg _ (by simp only [decide_eq_true_eq]; omega),
    List.find?_cons_of_neg _ (by simp only [decide_eq_true_eq]; omega),
    List.find?_cons_of_pos _ (by simp only [decide_eq_true_eq]; omega)]
  rfl

theorem step90 {m : Nat} (h1 : 90 ≤ m) (h2 : m < 100) :
    extractDigits m = 90 :: extractDigits (m - 90) := by
  refine extractDigits_step ?_ (by omega) (by omega)
  have hm : ¬ m = 0 := by omega
  unfold digit_extractor
  rw [if_neg hm, DIGITS_eq,
    List.find?_cons_of_neg _ (by simp only [decide_eq_true_eq]; omega),
    List.find?_cons_of_neg _ (by simp only [decide_eq_true_eq]; omega),
    List.find?_cons_of_neg _ (by simp only [decide_eq_true_eq]; omega),
    List.find?_cons_of_neg _ (by simp only [decide_eq_true_eq]; omega),
    List.find?_cons_of_neg _ (by simp only [decide_eq_true_eq]; omega),
    List.find?_cons_of_pos _ (by simp only [decide_eq_true_eq]; omega)]
  rfl

theorem step50 {m : Nat} (h1 : 50 ≤ m) (h2 : m < 90) :
    extractDigits m = 50 :: extractDigits (m - 50) := by
  refine extractDigits_step ?_ (by omega) (by omega)
  have hm : ¬ m = 0 := by omega
  unfold digit_extractor
  rw [if_neg hm, DIGITS_eq,
    List.find?_cons_of_neg _ (by simp only [decide_eq_true_eq]; omega),
    List.find?_cons_of_neg _ (by simp only [decide_eq_true_eq]; omega),
    List.find?_cons_of_neg _ (by simp only [decide_eq_true_eq]; omega),
    List.find?_cons_of_neg _ (by simp only [decide_eq_true_eq]; omega),
    List.find?_cons_of_neg _ (by simp only [decide_eq_true_eq]; omega),
    List.find?_cons_of_neg _ (by simp only [decide_eq_true_eq]; omega),
    List.find?_cons_of_pos _ (by simp only [decide_eq_true_eq]; omega)]
  rfl

theorem step40 {m : Nat} (h1 : 40 ≤ m) (h2 : m < 50) :
    extractDigits m = 40 :: extractDigits (m - 40) := by
  refine extractDigits_step ?_ (by omega) (by omega)
  have hm : ¬ m = 0 := by omega
  unfold digit_extractor
  rw [if_neg hm, DIGITS_eq,
    List.find?_cons_of_neg _ (by simp only [decide_eq_true_eq]; omega),
    List.find?_cons_of_neg _ (by simp only [decide_eq_true_eq]; omega),
    List.find?_cons_of_neg _ (by simp only [decide_eq_true_eq]; omega),
    List.find?_cons_of_neg _ (by simp only [decide_eq_true_eq]; omega),
    List.find?_cons_of_neg _ (by simp only [decide_eq_true_eq]; omega),
    List.find?_cons_of_neg _ (by simp only [decide_eq_true_eq]; omega),
    List.find?_cons_of_neg _ (by simp only [decide_eq_true_eq]; omega),
    List.find?_cons_of_pos _ (by simp only [decide_eq_true_eq]; omega)]
  rfl

theorem step10 {m : Nat} (h1 : 10 ≤ m) (h2 : m < 40) :
    extractDigits m = 10 :: extractDigits (m - 10) := by
  refine extractDigits_step ?_ (by omega) (by omega)
  have hm : ¬ m = 0 := by omega
  unfold digit_extractor
  rw [if_neg hm, DIGITS_eq,
    List.find?_cons_of_neg _ (by simp only [decide_eq_true_eq]; omega),
    List.find?_cons_of_neg _ (by simp only [decide_eq_true_eq]; omega),
    List.find?_cons_of_neg _ (by simp only [decide_eq_true_eq]; omega),
    List.find?_cons_of_neg _ (by simp only [decide_eq_true_eq]; omega),
    List.find?_cons_of_neg _ (by simp only [decide_eq_true_eq]; omega),
    List.find?_cons_of_neg _ (by simp only [decide_eq_true_eq]; omega),
    List.find?_cons_of_neg _ (by simp only [decide_eq_true_eq]; omega),
    List.find?_cons_of_neg _ (by simp only [decide_eq_true_eq]; omega),
    List.find?_cons_of_pos _ (by simp only [decide_eq_true_eq]; omega)]
  rfl

theorem step9 {m : Nat} (h1 : 9 ≤ m) (h2 : m < 10) :
    extractDigits m = 9 :: extractDigits (m - 9) := by
  refine extractDigits_step ?_ (by omega) (by omega)
  have hm : ¬ m = 0 := by omega
  unfold digit_extractor
  rw [if_neg hm, DIGITS_eq,
    List.find?_cons_of_neg _ (by simp only [decide_eq_true_eq]; omega),
    List.find?_cons_of_neg _ (by simp only [decide_eq_true_eq]; omega),
    List.find?_cons_of_neg _ (by simp only [decide_eq_true_eq]; omega),
    List.find?_cons_of_neg _ (by simp only [decide_eq_true_eq]; omega),
    List.find?_cons_of_neg _ (by simp only [decide_eq_true_eq]; omega),
    List.find?_cons_of_neg _ (by simp only [decide_eq_true_eq]; omega),
    List.find?_cons_of_neg _ (by simp only [decide_eq_true_eq]; omega),
    List.find?_cons_of_neg _ (by simp only [decide_eq_true_eq]; omega),
    List.find?_cons_of_neg _ (by simp only [decide_eq_true_eq]; omega),
    List.find?_cons_of_pos _ (by simp only [decide_eq_true_eq]; omega)]
  rfl

theorem step5 {m : Nat} (h1 : 5 ≤ m) (h2 : m < 9) :
    extractDigits m = 5 :: extractDigits (m - 5) := by
  refine extractDigits_step ?_ (by omega) (by omega)
  have hm : ¬ m = 0 := by omega
  unfold digit_extractor
  rw [if_neg hm, DIGITS_eq,
    List.find?_cons_of_neg _ (by simp only [decide_eq_true_eq]; omega),
    List.find?_cons_of_neg _ (by simp only [decide_eq_true_eq]; omega),
    List.find?_cons_of_neg _ (by simp only [decide_eq_true_eq]; omega),
    List.find?_cons_of_neg _ (by simp only [decide_eq_true_eq]; omega),
    List.find?_cons_of_neg _ (by simp only [decide_eq_true_eq]; omega),
    List.find?_cons_of_neg _ (by simp only [decide_eq_true_eq]; omega),
    List.find?_cons_of_neg _ (by simp only [decide_eq_true_eq]; omega),
    List.find?_cons_of_neg _ (by simp only [decide_eq_true_eq]; omega),
    List.find?_cons_of_neg _ (by simp only [decide_eq_true_eq]; omega),
    List.find?_cons_of_neg _ (by simp only [decide_eq_true_eq]; omega),
    List.find?_cons_of_pos _ (by simp only [decide_eq_true_eq]; omega)]
  rfl

theorem step4 {m : Nat} (h1 : 4 ≤ m) (h2 : m < 5) :
    extractDigits m = 4 :: extractDigits (m - 4) := by
  refine extractDigits_step ?_ (by omega) (by omega)
  have hm : ¬ m = 0 := by omega
  unfold digit_extractor
  rw [if_neg hm, DIGITS_eq,
    List.find?_cons_of_neg _ (by simp only [decide_eq_true_eq]; omega),
    List.find?_cons_of_neg _ (by simp only [decide_eq_true_eq]; omega),
    List.find?_cons_of_neg _ (by simp only [decide_eq_true_eq]; omega),
    List.find?_cons_of_neg _ (by simp only [decide_eq_true_eq]; omega),
    List.find?_cons_of_neg _ (by simp only [decide_eq_true_eq]; omega),
    List.find?_cons_of_neg _ (by simp only [decide_eq_true_eq]; omega),
    List.find?_cons_of_neg _ (by simp only [decide_eq_true_eq]; omega),
    List.find?_cons_of_neg _ (by simp only [decide_eq_true_eq]; omega),
    List.find?_cons_of_neg _ (by simp only [decide_eq_true_eq]; omega),
    List.find?_cons_of_neg _ (by simp only [decide_eq_true_eq]; omega),
    List.find?_cons_of_neg _ (by simp only [decide_eq_true_eq]; omega),
    List.find?_cons_of_pos _ (by simp only [decide_eq_true_eq]; omega)]
  rfl

theorem step1 {m : Nat} (h1 : 1 ≤ m) (h2 : m < 4) :
    extractDigits m = 1 :: extractDigits (m - 1) := by
  refine extractDigits_step ?_ (by omega) (by omega)
  have hm : ¬ m = 0 := by omega
  unfold digit_extractor
  rw [if_neg hm, DIGITS_eq,
    List.find?_cons_of_neg _ (by simp only [decide_eq_true_eq]; omega),
    List.find?_cons_of_neg _ (by simp only [decide_eq_true_eq]; omega),
    List.find?_cons_of_neg _ (by simp only [decide_eq_true_eq]; omega),
    List.find?_cons_of_neg _ (by simp only [decide_eq_true_eq]; omega),
    List.find?_cons_of_neg _ (by simp only [decide_eq_true_eq]; omega),
    List.find?_cons_of_neg _ (by simp only [decide_eq_true_eq]; omega),
    List.find?_cons_of_neg _ (by simp only [decide_eq_true_eq]; omega),
    List.find?_cons_of_neg _ (by simp only [decide_eq_true_eq]; omega),
    List.find?_cons_of_neg _ (by simp only [decide_eq_true_eq]; omega),
    List.find?_cons_of_neg _ (by simp only [decide_eq_true_eq]; omega),
    List.find?_cons_of_neg _ (by simp only [decide_eq_true_eq]; omega),
    List.find?_cons_of_neg _ (by simp only [decide_eq_true_eq]; omega),
    List.find?_cons_of_pos _ (by simp only [decide_eq_true_eq]; omega)]
  rfl

/-! ## Decimal-block structure of the extraction -/

theorem extract_thousands {a r : Nat} (ha : a ≤ 3) (hr : r < 1000) :
    extractDigits (1000 * a + r) = thousandsDig a ++ extractDigits r := by
  interval_cases a
  · simp [thousandsDig]
  · rw [show 1000 * 1 + r = 1000 + r by omega, step1000 (by omega),
      show 1000 + r - 1000 = r by omega]
    rfl
  · rw [show 1000 * 2 + r = 2000 + r by omega, step1000 (by omega),
      show 2000 + r - 1000 = 1000 + r by omega, step1000 (by omega),
      show 1000 + r - 1000 = r by omega]
    rfl
  · rw [show 1000 * 3 + r = 3000 + r by omega, step1000 (by omega),
      show 3000 + r - 1000 = 2000 + r by omega, step1000 (by omega),
      show 2000 + r - 1000 = 1000 + r by omega, step1000 (by omega),
      show 1000 + r - 1000 = r by omega]
    rfl

theorem extract_hundreds {b s : Nat} (hb : b ≤ 9) (hs : s < 100) :
    extractDigits (100 * b + s) = hundredsDig b ++ extractDigits s := by
  interval_cases b
  · simp [hundredsDig]
  · rw [show 100 * 1 + s = 100 + s by omega, step100 (by omega) (by omega),
      show 100 + s - 100 = s by omega]
    rfl
  · rw [show 100 * 2 + s = 200 + s by omega, step100 (by omega) (by omega),
      show 200 + s - 100 = 100 + s by omega, step100 (by omega) (by omega),
      show 100 + s - 100 = s by omega]
    rfl
  · rw [show 100 * 3 + s = 300 + s by omega, step100 (by omega) (by omega),
      show 300 + s - 100 = 200 + s by omega, step100 (by omega) (by omega),
      show 200 + s - 100 = 100 + s by omega, step100 (by omega) (by omega),
      show 100 + s - 100 = s by omega]
    rfl
  · rw [show 100 * 4 + s = 400 + s by omega, step400 (by omega) (by omega),
      show 400 + s - 400 = s by omega]
    rfl
  · rw [show 100 * 5 + s = 500 + s by omega, step500 (by omega) (by omega),
      show 500 + s - 500 = s by omega]
    rfl
  · rw [show 100 * 6 + s = 600 + s by omega, step500 (by omega) (by omega),
      show 600 + s - 500 = 100 + s by omega, step100 (by omega) (by omega),
      show 100 + s - 100 = s by omega]
    rfl
  · rw [show 100 * 7 + s = 700 + s by omega, step500 (by omega) (by omega),
      show 700 + s - 500 = 200 + s by omega, step100 (by omega) (by omega),
      show 200 + s - 100 = 100 + s by omega, step100 (by omega) (by omega),
      show 100 + s - 100 = s by omega]
    rfl
  · rw [show 100 * 8 + s = 800 + s by omega, step500 (by omega) (by omega),
      show 800 + s - 500 = 300 + s by omega, step100 (by omega) (by omega),
      show 300 + s - 100 = 200 + s by omega, step100 (by omega) (by omega),
      show 200 + s - 100 = 100 + s by omega, step100 (by omega) (by omega),
      show 100 + s - 100 = s by omega]
    rfl
  · rw [show 100 * 9 + s = 900 + s by omega, step900 (by omega) (by omega),
      show 900 + s - 900 = s by omega]
    rfl

theorem extract_tens {c s : Nat} (hc : c ≤ 9) (hs : s < 10) :
    extractDigits (10 * c + s) = tensDig c ++ extractDigits s := by
  interval_cases c
  · simp [tensDig]
  · rw [show 10 * 1 + s = 10 + s by omega, step10 (by omega) (by omega),
      show 10 + s - 10 = s by omega]
    rfl
  · rw [show 10 * 2 + s = 20 + s by omega, step10 (by omega) (by omega),
      show 20 + s - 10 = 10 + s by omega, step10 (by omega) (by omega),
      show 10 + s - 10 = s by omega]
    rfl
  · rw [show 10 * 3 + s = 30 + s by omega, step10 (by omega) (by omega),
      show 30 + s - 10 = 20 + s by omega, step10 (by omega) (by omega),
      show 20 + s - 10 = 10 + s by omega, step10 (by omega) (by omega),
      show 10 + s - 10 = s by omega]
    rfl
  · rw [show 10 * 4 + s = 40 + s by omega, step40 (by omega) (by omega),
      show 40 + s - 40 = s by omega]
    rfl
  · rw [show 10 * 5 + s = 50 + s by omega, step50 (by omega) (by omega),
      show 50 + s - 50 = s by omega]
    rfl
  · rw [show 10 * 6 + s = 60 + s by omega, step50 (by omega) (by omega),
      show 60 + s - 50 = 10 + s by omega, step10 (by omega) (by omega),
      show 10 + s - 10 = s by omega]
    rfl
  · rw [show 10 * 7 + s = 70 + s by omega, step50 (by omega) (by omega),
      show 70 + s - 50 = 20 + s by omega, step10 (by omega) (by omega),
      show 20 + s - 10 = 10 + s by omega, step10 (by omega) (by omega),
      show 10 + s - 10 = s by omega]
    rfl
  · rw [show 10 * 8 + s = 80 + s by omega, step50 (by omega) (by omega),
      show 80 + s - 50 = 30 + s by omega, step10 (by omega) (by omega),
      show 30 + s - 10 = 20 + s by omega, step10 (by omega) (by omega),
      show 20 + s - 10 = 10 + s by omega, step10 (by omega) (by omega),
      show 10 + s - 10 = s by omega]
    rfl
  · rw [show 10 * 9 + s = 90 + s by omega, step90 (by omega) (by omega),
      show 90 + s - 90 = s by omega]
    rfl

theorem extract_units {u : Nat} (hu : u ≤ 9) :
    extractDigits u = unitsDig u := by
  interval_cases u <;> decide

/-- Every conversion-range value extracts to the concatenation of its four
decimal-digit blocks. -/
theorem extractDigits_blocks {n : Nat} (h2 : n ≤ 3999) :
    extractDigits n = thousandsDig (n / 1000) ++ (hundredsDig (n / 100 % 10)
      ++ (tensDig (n / 10 % 10) ++ unitsDig (n % 10))) := by
  have e : n = 1000 * (n / 1000)
      + (100 * (n / 100 % 10) + (10 * (n / 10 % 10) + n % 10)) := by omega
  conv_lhs => rw [e]
  rw [extract_thousands (by omega) (by omega),
    extract_hundreds (by omega) (by omega),
    extract_tens (by omega) (by omega),
    extract_units (by omega)]

theorem syms_thousands {a : Nat} (ha : a ≤ 3) :
    ((thousandsDig a).filterMap VALUES_TO_SYMBOLS).flatten = thousandsSym a := by
  interval_cases a <;> decide

theorem syms_hundreds {b : Nat} (hb : b ≤ 9) :
    ((hundredsDig b).filterMap VALUES_TO_SYMBOLS).flatten = hundredsSym b := by
  interval_cases b <;> decide

theorem syms_tens {c : Nat} (hc : c ≤ 9) :
    ((tensDig c).filterMap VALUES_TO_SYMBOLS).flatten = tensSym c := by
  interval_cases c <;> decide

theorem syms_units {u : Nat} (hu : u ≤ 9) :
    ((unitsDig u).filterMap VALUES_TO_SYMBOLS).flatten = unitsSym u := by
  interval_cases u <;> decide

/-- Every conversion-range value encodes to the concatenation of its four
decimal-digit symbol blocks. -/
theorem encode_blocks {n : Nat} (h1 : 1 ≤ n) (h2 : n ≤ 3999) :
    integer_to_roman n = .ok (thousandsSym (n / 1000) ++ (hundredsSym (n / 100 % 10)
      ++ (tensSym (n / 10 % 10) ++ unitsSym (n % 10)))) := by
  unfold integer_to_roman
  rw [if_neg (by simp only [MIN_VALUE]; omega), if_neg (by simp only [MAX_VALUE]; omega)]
  rw [extractDigits_blocks h2]
  rw [List.filterMap_append, List.filterMap_append, List.filterMap_append,
    List.flatten_append, List.flatten_append, List.flatten_append,
    syms_thousands (by omega), syms_hundreds (by omega),
    syms_tens (by omega), syms_units (by omega)]

/-! ## Decomposition of the encoded blocks

The decoder's single pass over `ATOMS` splits along the same four blocks:
each atom segment absorbs exactly its symbol block, provided the remaining
suffix starts with a character no atom of the segment can match. -/

theorem ATOMS_segments : ATOMS = G1 ++ (G2 ++ (G3 ++ G4)) := by decide

theorem decomposeGo_append (l1 l2 : List RomanNumeral) (t : List Nat) :
    decomposeGo (l1 ++ l2) t
      = ((decomposeGo l1 t).1 ++ (decomposeGo l2 (decomposeGo l1 t).2).1,
         (decomposeGo l2 (decomposeGo l1 t).2).2) := by
  induction l1 generalizing t with
  | nil => simp [decomposeGo]
  | cons a l ih =>
    simp only [List.cons_append, decomposeGo, List.append_eq]
    rw [ih]
    simp [List.append_assoc]

theorem headOk_append {A x y : List Nat} (hx : headOk A x = true)
    (hy : headOk A y = true) : headOk A (x ++ y) = true := by
  cases x with
  | nil => simpa using hy
  | cons c t => simpa [headOk] using hx

theorem headOk_units3 {u : Nat} (hu : u ≤ 9) :
    headOk [73, 86] (unitsSym u) = true := by
  interval_cases u <;> decide

theorem headOk_units2 {u : Nat} (hu : u ≤ 9) :
    headOk [88, 76, 73, 86] (unitsSym u) = true := by
  interval_cases u <;> decide

theorem headOk_units1 {u : Nat} (hu : u ≤ 9) :
    headOk [67, 68, 88, 76, 73, 86] (unitsSym u) = true := by
  interval_cases u <;> decide

theorem headOk_tens2 {c : Nat} (hc : c ≤ 9) :
    headOk [88, 76, 73, 86] (tensSym c) = true := by
  interval_cases c <;> decide

theorem headOk_tens1 {c : Nat} (hc : c ≤ 9) :
    headOk [67, 68, 88, 76, 73, 86] (tensSym c) = true := by
  interval_cases c <;> decide

theorem headOk_hundreds1 {b : Nat} (hb : b ≤ 9) :
    headOk [67, 68, 88, 76, 73, 86] (hundredsSym b) = true := by
  interval_cases b <;> decide

theorem decomp_G1 {a : Nat} (ha : a ≤ 3) {rest : List Nat}
    (hr : headOk [67, 68, 88, 76, 73, 86] rest = true) :
    decomposeGo G1 (thousandsSym a ++ rest) = (thousandsDig a, rest) := by
  interval_cases a <;> rcases rest with _ | ⟨c, tail⟩ <;>
  all_goals first
    | decide
    | (have hc : c = 67 ∨ c = 68 ∨ c = 88 ∨ c = 76 ∨ c = 73 ∨ c = 86 := by
         simpa [headOk] using hr
       rcases hc with rfl | rfl | rfl | rfl | rfl | rfl <;> rfl)

theorem decomp_G2 {b : Nat} (hb : b ≤ 9) {rest : List Nat}
    (hr : headOk [88, 76, 73, 86] rest = true) :
    decomposeGo G2 (hundredsSym b ++ rest) = (hundredsDig b, rest) := by
  interval_cases b <;> rcases rest with _ | ⟨c, tail⟩ <;>
  all_goals first
    | decide
    | (have hc : c = 88 ∨ c = 76 ∨ c = 73 ∨ c = 86 := by simpa [headOk] using hr
       rcases hc with rfl | rfl | rfl | rfl <;> rfl)

theorem decomp_G3 {c : Nat} (hc : c ≤ 9) {rest : List Nat}
    (hr : headOk [73, 86] rest = true) :
    decomposeGo G3 (tensSym c ++ rest) = (tensDig c, rest) := by
  interval_cases c <;> rcases rest with _ | ⟨d, tail⟩ <;>
  all_goals first
    | decide
    | (have hd2 : d = 73 ∨ d = 86 := by simpa [headOk] using hr
       rcases hd2 with rfl | rfl <;> rfl)

theorem decomp_G4 {u : Nat} (hu : u ≤ 9) :
    decomposeGo G4 (unitsSym u) = (unitsDig u, []) := by
  interval_cases u <;> decide

/-- Decomposing the block encoding consumes it entirely and records
exactly the extracted digit values. -/
theorem decompose_encode {n : Nat} (h2 : n ≤ 3999) :
    decomposeGo ATOMS (thousandsSym (n / 1000) ++ (hundredsSym (n / 100 % 10)
      ++ (tensSym (n / 10 % 10) ++ unitsSym (n % 10))))
      = (thousandsDig (n / 1000) ++ (hundredsDig (n / 100 % 10)
          ++ (tensDig (n / 10 % 10) ++ unitsDig (n % 10))), []) := by
  have hU1 : headOk [67, 68, 88, 76, 73, 86] (unitsSym (n % 10)) = true :=
    headOk_units1 (by omega)
  have hT1 : headOk [67, 68, 88, 76, 73, 86] (tensSym (n / 10 % 10)) = true :=
    headOk_tens1 (by omega)
  have hH1 : headOk [67, 68, 88, 76, 73, 86] (hundredsSym (n / 100 % 10)) = true :=
    headOk_hundreds1 (by omega)
  have hU2 : headOk [88, 76, 73, 86] (unitsSym (n % 10)) = true :=
    headOk_units2 (by omega)
  have hT2 : headOk [88, 76, 73, 86] (tensSym (n / 10 % 10)) = true :=
    headOk_tens2 (by omega)
  have hU3 : headOk [73, 86] (unitsSym (n % 10)) = true :=
    headOk_units3 (by omega)
  rw [ATOMS_segments, decomposeGo_append,
    decomp_G1 (by omega) (headOk_append hH1 (headOk_append hT1 hU1))]
  rw [decomposeGo_append, decomp_G2 (by omega) (headOk_append hT2 hU2)]
  rw [decomposeGo_append, decomp_G3 (by omega) hU3]
  rw [decomp_G4 (by omega)]

/-! ## The encoded string is already normalized -/

theorem romanChars_eq : romanChars = [73, 86, 88, 76, 67, 68, 77] := by decide

theorem roman_char_cases {ch : Nat} (h : romanChars.contains ch = true) :
    ch = 73 ∨ ch = 86 ∨ ch = 88 ∨ ch = 76 ∨ ch = 67 ∨ ch = 68 ∨ ch = 77 := by
  rw [romanChars_eq] at h
  simpa using h

theorem roman_char_not_ws {ch : Nat} (h : romanChars.contains ch = true) :
    isWhitespaceChar ch = false := by
  rcases roman_char_cases h with rfl | rfl | rfl | rfl | rfl | rfl | rfl <;> decide

theorem roman_char_upper_fix {ch : Nat} (h : romanChars.contains ch = true) :
    to_ascii_uppercase ch = ch := by
  rcases roman_char_cases h with rfl | rfl | rfl | rfl | rfl | rfl | rfl <;> decide

theorem dropWhile_eq_self_of_all {p : Nat → Bool} {l : List Nat}
    (h : ∀ ch ∈ l, p ch = false) : l.dropWhile p = l := by
  cases l with
  | nil => rfl
  | cons a t =>
    have ha : ¬ p a = true := by
      rw [h a (List.mem_cons_self a t)]
      exact Bool.false_ne_true
    exact List.dropWhile_cons_of_neg ha

theorem map_id_of_fixed {f : Nat → Nat} {l : List Nat}
    (h : ∀ ch ∈ l, f ch = ch) : l.map f = l := by
  induction l with
  | nil => rfl
  | cons a t ih =>
    rw [List.map_cons, h a (List.mem_cons_self a t),
      ih (fun ch hc => h ch (List.mem_cons_of_mem a hc))]

/-- A string of Roman letters is untouched by normalization. -/
theorem normalize_roman_id {l : List Nat}
    (h : l.all (fun ch => romanChars.contains ch) = true) :
    normalize_numeral l = l := by
  have hmem := List.all_eq_true.mp h
  have hws : ∀ ch ∈ l, isWhitespaceChar ch = false :=
    fun ch hc => roman_char_not_ws (hmem ch hc)
  have hup : ∀ ch ∈ l, to_ascii_uppercase ch = ch :=
    fun ch hc => roman_char_upper_fix (hmem ch hc)
  unfold normalize_numeral trim trimRight trimLeft
  rw [dropWhile_eq_self_of_all hws,
    dropWhile_eq_self_of_all (fun ch hc => hws ch (by simpa using hc)),
    List.reverse_reverse]
  exact map_id_of_fixed hup

theorem allRoman_thousands {a : Nat} (ha : a ≤ 3) :
    (thousandsSym a).all (fun ch => romanChars.contains ch) = true := by
  interval_cases a <;> decide

theorem allRoman_hundreds {b : Nat} (hb : b ≤ 9) :
    (hundredsSym b).all (fun ch => romanChars.contains ch) = true := by
  interval_cases b <;> decide

theorem allRoman_tens {c : Nat} (hc : c ≤ 9) :
    (tensSym c).all (fun ch => romanChars.contains ch) = true := by
  interval_cases c <;> decide

theorem allRoman_units {u : Nat} (hu : u ≤ 9) :
    (unitsSym u).all (fun ch => romanChars.contains ch) = true := by
  interval_cases u <;> decide

theorem thousandsSym_len_zero {a : Nat} (ha : a ≤ 3)
    (h : (thousandsSym a).length = 0) : a = 0 := by
  interval_cases a
  · rfl
  all_goals (exfalso; revert h; decide)

theorem hundredsSym_len_zero {b : Nat} (hb : b ≤ 9)
    (h : (hundredsSym b).length = 0) : b = 0 := by
  interval_cases b
  · rfl
  all_goals (exfalso; revert h; decide)

theorem tensSym_len_zero {c : Nat} (hc : c ≤ 9)
    (h : (tensSym c).length = 0) : c = 0 := by
  interval_cases c
  · rfl
  all_goals (exfalso; revert h; decide)

theorem unitsSym_len_zero {u : Nat} (hu : u ≤ 9)
    (h : (unitsSym u).length = 0) : u = 0 := by
  interval_cases u
  · rfl
  all_goals (exfalso; revert h; decide)

/-- The block encoding of a value in the range is a non-empty string. -/
theorem blocks_len_ne_zero {n : Nat} (h1 : 1 ≤ n) (h2 : n ≤ 3999) :
    ¬ (thousandsSym (n / 1000) ++ (hundredsSym (n / 100 % 10)
      ++ (tensSym (n / 10 % 10) ++ unitsSym (n % 10)))).length = 0 := by
  intro hlen
  rw [List.length_append, List.length_append, List.length_append] at hlen
  have e1 : n / 1000 = 0 := thousandsSym_len_zero (by omega) (by omega)
  have e2 : n / 100 % 10 = 0 := hundredsSym_len_zero (by omega) (by omega)
  have e3 : n / 10 % 10 = 0 := tensSym_len_zero (by omega) (by omega)
  have e4 : n % 10 = 0 := unitsSym_len_zero (by omega) (by omega)
  omega

theorem allRoman_blocks {n : Nat} (h2 : n ≤ 3999) :
    (thousandsSym (n / 1000) ++ (hundredsSym (n / 100 % 10)
      ++ (tensSym (n / 10 % 10) ++ unitsSym (n % 10)))).all
      (fun ch => romanChars.contains ch) = true := by
  rw [List.all_append, List.all_append, List.all_append]
  simp only [Bool.and_eq_true]
  exact ⟨allRoman_thousands (by omega), allRoman_hundreds (by omega),
    allRoman_tens (by omega), allRoman_units (by omega)⟩

/-- Decoding the block encoding of a range value gives the value back. -/
theorem decode_encode_blocks {n : Nat} (h1 : 1 ≤ n) (h2 : n ≤ 3999) :
    roman_to_integer (thousandsSym (n / 1000) ++ (hundredsSym (n / 100 % 10)
      ++ (tensSym (n / 10 % 10) ++ unitsSym (n % 10)))) = .ok n := by
  have hall := allRoman_blocks h2
  have hch : check_numeral_format (thousandsSym (n / 1000) ++ (hundredsSym (n / 100 % 10)
      ++ (tensSym (n / 10 % 10) ++ unitsSym (n % 10))))
      = .ok (thousandsSym (n / 1000) ++ (hundredsSym (n / 100 % 10)
      ++ (tensSym (n / 10 % 10) ++ unitsSym (n % 10)))) := by
    unfold check_numeral_format
    rw [if_neg (blocks_len_ne_zero h1 h2), if_pos hall]
  have hdec : decompose_numeral (thousandsSym (n / 1000) ++ (hundredsSym (n / 100 % 10)
      ++ (tensSym (n / 10 % 10) ++ unitsSym (n % 10))))
      = .ok (thousandsDig (n / 1000) ++ (hundredsDig (n / 100 % 10)
      ++ (tensDig (n / 10 % 10) ++ unitsDig (n % 10)))) := by
    unfold decompose_numeral
    rw [decompose_encode h2]
    simp
  unfold roman_to_integer
  rw [normalize_roman_id hall]
  simp only [hch, hdec]
  rw [← extractDigits_blocks h2, extractDigits_sum]

/-! ## The claims -/

/-- C6: `integer_to_roman` fails with `ValueTooSmall val` exactly when
`val < MIN_VALUE`, fails with `ValueTooLarge val` exactly when
`val > MAX_VALUE`, and at the boundaries: 0 is too small, 4000 too large,
1 encodes to "I" and 3999 to "MMMCMXCIX". -/
theorem C6_encoder_bounds :
    (∀ v : Nat, integer_to_roman v = .error (.ValueTooSmall v) ↔ v < MIN_VALUE) ∧
    (∀ v : Nat, integer_to_roman v = .error (.ValueTooLarge v) ↔ MAX_VALUE < v) ∧
    integer_to_roman 0 = .error (.ValueTooSmall 0) ∧
    integer_to_roman 4000 = .error (.ValueTooLarge 4000) ∧
    integer_to_roman 1 = .ok (str "I") ∧
    integer_to_roman 3999 = .ok (str "MMMCMXCIX") := by
  refine ⟨?_, ?_, by decide, by decide, by decide, by decide⟩
  · intro v
    unfold integer_to_roman
    by_cases h1 : v < MIN_VALUE
    · simp [h1]
    · by_cases h2 : v > MAX_VALUE <;> simp [h1, h2]
  · intro v
    unfold integer_to_roman
    by_cases h1 : v < MIN_VALUE
    · have : ¬ MAX_VALUE < v := by
        simp only [MIN_VALUE] at h1
        simp only [MAX_VALUE]
        omega
      simp [h1, this]
    · by_cases h2 : v > MAX_VALUE <;> simp [h1, h2]

/-- C7: `roman_to_integer` fails with `EmptyString` exactly when the
normalized input is empty, and fails with `Unparsable` (carrying the
normalized text) whenever the normalized text is non-empty but contains a
character outside the seven Roman letters. -/
theorem C7_format_errors :
    ∀ s : List Nat,
      (roman_to_integer s = .error .EmptyString ↔ (normalize_numeral s).length = 0) ∧
      ((normalize_numeral s).length ≠ 0 →
        (∃ c ∈ normalize_numeral s, romanChars.contains c = false) →
        roman_to_integer s = .error (.Unparsable (normalize_numeral s))) := by
  intro s
  constructor
  · constructor
    · intro h
      by_contra hlen
      have hch : check_numeral_format (normalize_numeral s) = .ok (normalize_numeral s) ∨
          check_numeral_format (normalize_numeral s)
            = .error (.Unparsable (normalize_numeral s)) := by
        unfold check_numeral_format
        rw [if_neg hlen]
        by_cases hall : (normalize_numeral s).all (fun c => romanChars.contains c) = true
        · rw [if_pos hall]
          exact Or.inl rfl
        · rw [if_neg hall]
          exact Or.inr rfl
      unfold roman_to_integer at h
      rcases hch with hch | hch
      · simp only [hch] at h
        cases hd : decompose_numeral (normalize_numeral s) with
        | error e =>
          simp only [hd] at h
          have he : e = RomanNumeralError.EmptyString := Except.error.inj h
          exact decompose_ne_EmptyString (normalize_numeral s) (by rw [hd, he])
        | ok digits =>
          simp only [hd] at h
          simp at h
      · simp only [hch] at h
        simp at h
    · intro hlen
      have hch : check_numeral_format (normalize_numeral s) = .error .EmptyString := by
        unfold check_numeral_format
        rw [if_pos hlen]
      unfold roman_to_integer
      rw [hch]
  · intro hlen hbad
    have hall : ¬ ((normalize_numeral s).all (fun c => romanChars.contains c) = true) := by
      intro hall
      obtain ⟨c, hc, hcf⟩ := hbad
      have hct := List.all_eq_true.mp hall c hc
      rw [hcf] at hct
      exact absurd hct (by simp)
    have hch : check_numeral_format (normalize_numeral s)
        = .error (.Unparsable (normalize_numeral s)) := by
      unfold check_numeral_format
      rw [if_neg hlen, if_neg hall]
    unfold roman_to_integer
    rw [hch]

/-- C9: the decoder is insensitive to surrounding whitespace and letter
case, normalization is idempotent (`roman_to_integer` agrees on `s` and on
the trimmed upper-cased form of `s`), and " cv\n" and "CV" both decode to
105. -/
theorem C9_normalization_idem :
    (∀ s : List Nat, roman_to_integer (normalize_numeral s) = roman_to_integer s) ∧
    roman_to_integer (str " cv\n") = .ok 105 ∧
    roman_to_integer (str "CV") = .ok 105 := by
  refine ⟨?_, by decide, by decide⟩
  intro s
  unfold roman_to_integer
  rw [normalize_idem]

/-- C2: the decoder can succeed with a value above `MAX_VALUE`:
"MMMCMD" decodes to 4400 > 3999 (no bound check after decomposition). -/
theorem C2_decode_above_max :
    roman_to_integer (str "MMMCMD") = .ok 4400 ∧ MAX_VALUE < 4400 :=
  ⟨by decide, by decide⟩

/-- C3 counterexample: the claim (the repeatable flag is true exactly for
the six atoms M, D, C, L, X, I) fails on both tables. In the prototype
table the flag of V (index 10) is `true`; in the final table D (index 2)
has `max_group = 1`, and indeed "DD" is rejected, so D cannot be consumed
consecutively more than once. -/
theorem C3_repeatable_flags_cex :
    (¬ ∀ a ∈ ATOMS_romanus, (a.allow_multiples = true ↔
        a.symbol ∈ [str "M", str "D", str "C", str "L", str "X", str "I"])) ∧
    (¬ ∀ a ∈ ATOMS, (1 < a.max_group ↔
        a.symbol ∈ [str "M", str "D", str "C", str "L", str "X", str "I"])) ∧
    ATOMS_romanus[10]? = some ⟨5, str "V", true⟩ ∧
    ATOMS[2]? = some ⟨500, str "D", 1⟩ ∧
    roman_to_integer (str "DD") = .error (.Unparsable (str "DD")) := by
  refine ⟨?_, ?_, by decide, by decide, by decide⟩ <;> decide

/-- C3 amended: in the prototype table `allow_multiples` is true exactly
for the seven plain atoms M, D, C, L, X, V, I; in the final table the flag
is replaced by `max_group`, and consecutive consumption more than once
(`1 < max_group`) is permitted exactly for the four atoms M, C, X, I;
every `max_group` is 3 or 1. -/
theorem C3_repeatable_flags :
    (∀ a ∈ ATOMS_romanus, (a.allow_multiples = true ↔
        a.symbol ∈ [str "M", str "D", str "C", str "L", str "X", str "V", str "I"])) ∧
    (∀ a ∈ ATOMS, (1 < a.max_group ↔
        a.symbol ∈ [str "M", str "C", str "X", str "I"])) ∧
    (∀ a ∈ ATOMS, a.max_group = 3 ∨ a.max_group = 1) := by
  refine ⟨?_, ?_, ?_⟩ <;> decide

theorem C3_repeatable_flags_witness :
    1 < (⟨1000, str "M", 3⟩ : RomanNumeral).max_group ↔
      (⟨1000, str "M", 3⟩ : RomanNumeral).symbol
        ∈ [str "M", str "C", str "X", str "I"] :=
  C3_repeatable_flags.2.1 ⟨1000, str "M", 3⟩ (by decide)

/-- C4 counterexample: under the claim's unbounded-repetition reading of
the step rule (`decompose_claim`), "IIII" would be fully consumed by the
repeatable atom I and decompose to four 1s; the source's decomposition
(`decompose_numeral`) instead stops the I atom after `max_group = 3`
consecutive copies and rejects "IIII" as unparsable. -/
theorem C4_unbounded_cex :
    decompose_claim (str "IIII") = .ok [1, 1, 1, 1] ∧
    decompose_numeral (str "IIII") = .error (.Unparsable (str "IIII")) ∧
    roman_to_integer (str "IIII") = .error (.Unparsable (str "IIII")) :=
  ⟨by decide, by decide, by decide⟩

/-- C4 amended: the decomposition stage consumes, for each atom in table
order, consecutive copies of its symbol up to the atom's `max_group` (not
unboundedly): for every atom, k consecutive copies of its symbol decompose
to k copies of its value for 1 ≤ k ≤ max_group, and max_group + 1
consecutive copies are rejected as unparsable. -/
theorem C4_bounded_repetition :
    ∀ a ∈ ATOMS,
      (∀ k ∈ List.range' 1 a.max_group,
        decompose_numeral (List.flatten (List.replicate k a.symbol))
          = .ok (List.replicate k a.value)) ∧
      decompose_numeral (List.flatten (List.replicate (a.max_group + 1) a.symbol))
        = .error (.Unparsable
            (List.flatten (List.replicate (a.max_group + 1) a.symbol))) := by
  decide

theorem C4_bounded_repetition_witness :
    decompose_numeral (List.flatten (List.replicate 2 (str "M")))
      = .ok (List.replicate 2 1000) :=
  (C4_bounded_repetition ⟨1000, str "M", 3⟩ (by decide)).1 2 (by decide)

/-- C5: each of the malformed-but-character-valid inputs "IIII", "VV",
"XLXL", "MMCCD", "IM" passes the Stage-2 character-class check and is then
rejected as `Unparsable` by the decomposition stage (unconsumed text
remains), and `roman_to_integer` returns that error. -/
theorem C5_reject_malformed :
    (check_numeral_format (normalize_numeral (str "IIII")) = .ok (str "IIII") ∧
      decompose_numeral (str "IIII") = .error (.Unparsable (str "IIII")) ∧
      roman_to_integer (str "IIII") = .error (.Unparsable (str "IIII"))) ∧
    (check_numeral_format (normalize_numeral (str "VV")) = .ok (str "VV") ∧
      decompose_numeral (str "VV") = .error (.Unparsable (str "VV")) ∧
      roman_to_integer (str "VV") = .error (.Unparsable (str "VV"))) ∧
    (check_numeral_format (normalize_numeral (str "XLXL")) = .ok (str "XLXL") ∧
      decompose_numeral (str "XLXL") = .error (.Unparsable (str "XLXL")) ∧
      roman_to_integer (str "XLXL") = .error (.Unparsable (str "XLXL"))) ∧
    (check_numeral_format (normalize_numeral (str "MMCCD")) = .ok (str "MMCCD") ∧
      decompose_numeral (str "MMCCD") = .error (.Unparsable (str "MMCCD")) ∧
      roman_to_integer (str "MMCCD") = .error (.Unparsable (str "MMCCD"))) ∧
    (check_numeral_format (normalize_numeral (str "IM")) = .ok (str "IM") ∧
      decompose_numeral (str "IM") = .error (.Unparsable (str "IM")) ∧
      roman_to_integer (str "IM") = .error (.Unparsable (str "IM"))) := by
  refine ⟨⟨?_, ?_, ?_⟩, ⟨?_, ?_, ?_⟩, ⟨?_, ?_, ?_⟩, ⟨?_, ?_, ?_⟩, ⟨?_, ?_, ?_⟩⟩ <;>
    decide

/-! ## Forbidden runs do not cross block boundaries

A forbidden subsequence is a run of a single letter. Such a run occurs in
a concatenation only if it occurs in one of the parts or spans the
boundary, and spanning forces the left part to end with the letter and the
right part to begin with it. -/

theorem containsSeq_cons (pat : List Nat) (c : Nat) (r : List Nat) :
    containsSeq pat (c :: r) = (pat.isPrefixOf (c :: r) || containsSeq pat r) := rfl

theorem containsSeq_append_run {l k : Nat} {x y : List Nat} (_hk : 1 ≤ k)
    (hx : containsSeq (List.replicate k l) x = false)
    (hy : containsSeq (List.replicate k l) y = false)
    (hb : x.getLast? ≠ some l ∨ y.head? ≠ some l) :
    containsSeq (List.replicate k l) (x ++ y) = false := by
  induction x with
  | nil => simpa using hy
  | cons c x' ih =>
    rw [List.cons_append, containsSeq_cons]
    rw [containsSeq_cons] at hx
    simp only [Bool.or_eq_false_iff] at hx ⊢
    refine ⟨?_, ?_⟩
    · cases hpf : (List.replicate k l).isPrefixOf (c :: (x' ++ y)) with
      | false => rfl
      | true =>
        exfalso
        have hpre : List.replicate k l <+: c :: (x' ++ y) :=
          List.isPrefixOf_iff_prefix.mp hpf
        by_cases hlen : k ≤ (c :: x').length
        · have h2 : List.replicate k l <+: c :: x' := by
            refine List.prefix_of_prefix_length_le hpre ⟨y, by simp⟩ ?_
            simpa using hlen
          have h3 := List.isPrefixOf_iff_prefix.mpr h2
          rw [hx.1] at h3
          exact Bool.false_ne_true h3
        · obtain ⟨t, ht⟩ := hpre
          have hsplit : List.replicate k l
              = List.replicate (c :: x').length l
                ++ List.replicate (k - (c :: x').length) l := by
            rw [List.append_replicate_replicate]
            congr 1
            omega
          rw [hsplit, List.append_assoc] at ht
          have ht2 : List.replicate (c :: x').length l
              ++ (List.replicate (k - (c :: x').length) l ++ t)
              = (c :: x') ++ y := by
            rw [ht, List.cons_append]
          have hinj := List.append_inj ht2 (by simp)
          have hlast : (c :: x').getLast? = some l := by
            rw [← hinj.1]
            have : (c :: x').length = x'.length + 1 := by simp
            rw [this, List.replicate_succ', List.getLast?_concat]
          have hhead : y.head? = some l := by
            rw [← hinj.2]
            obtain ⟨j, hj⟩ : ∃ j, k - (c :: x').length = j + 1 := by
              refine ⟨k - (c :: x').length - 1, ?_⟩
              simp only [List.length_cons] at hlen ⊢
              omega
            rw [hj, List.replicate_succ, List.cons_append]
            rfl
          rcases hb with hb | hb
          · exact hb hlast
          · exact hb hhead
    · apply ih hx.2
      rcases x' with _ | ⟨d, x''⟩
      · left
        simp
      · rcases hb with hb | hb
        · left
          rw [List.getLast?_cons_cons] at hb
          exact hb
        · right
          exact hb

theorem head_ne_of_headOk {A rest : List Nat} {l : Nat}
    (h : headOk A rest = true) (hl : A.contains l = false) :
    rest.head? ≠ some l := by
  intro hc
  cases rest with
  | nil => simp at hc
  | cons c t =>
    have hc2 : c = l := by simpa using hc
    have h2 : A.contains c = true := h
    rw [hc2, hl] at h2
    exact Bool.false_ne_true h2

theorem lastT {a : Nat} (ha : a ≤ 3) :
    (thousandsSym a).getLast? = none ∨ (thousandsSym a).getLast? = some 77 := by
  interval_cases a <;> decide

theorem lastH {b : Nat} (hb : b ≤ 9) :
    (hundredsSym b).getLast? = none ∨ (hundredsSym b).getLast? = some 67
      ∨ (hundredsSym b).getLast? = some 68 ∨ (hundredsSym b).getLast? = some 77 := by
  interval_cases b <;> decide

theorem lastTe {c : Nat} (hc : c ≤ 9) :
    (tensSym c).getLast? = none ∨ (tensSym c).getLast? = some 88
      ∨ (tensSym c).getLast? = some 76 ∨ (tensSym c).getLast? = some 67 := by
  interval_cases c <;> decide

theorem noForbidden_T {a : Nat} (ha : a ≤ 3) :
    ∀ f ∈ FORBIDDEN, containsSeq f (thousandsSym a) = false := by
  interval_cases a <;> decide

theorem noForbidden_H {b : Nat} (hb : b ≤ 9) :
    ∀ f ∈ FORBIDDEN, containsSeq f (hundredsSym b) = false := by
  interval_cases b <;> decide

theorem noForbidden_Te {c : Nat} (hc : c ≤ 9) :
    ∀ f ∈ FORBIDDEN, containsSeq f (tensSym c) = false := by
  interval_cases c <;> decide

theorem noForbidden_U {u : Nat} (hu : u ≤ 9) :
    ∀ f ∈ FORBIDDEN, containsSeq f (unitsSym u) = false := by
  interval_cases u <;> decide

theorem run_blocks {n l k : Nat} (hk : 1 ≤ k)
    (hT : containsSeq (List.replicate k l) (thousandsSym (n / 1000)) = false)
    (hH : containsSeq (List.replicate k l) (hundredsSym (n / 100 % 10)) = false)
    (hTe : containsSeq (List.replicate k l) (tensSym (n / 10 % 10)) = false)
    (hU : containsSeq (List.replicate k l) (unitsSym (n % 10)) = false)
    (j1 : (thousandsSym (n / 1000)).getLast? ≠ some l ∨
      (hundredsSym (n / 100 % 10) ++ (tensSym (n / 10 % 10)
        ++ unitsSym (n % 10))).head? ≠ some l)
    (j2 : (hundredsSym (n / 100 % 10)).getLast? ≠ some l ∨
      (tensSym (n / 10 % 10) ++ unitsSym (n % 10)).head? ≠ some l)
    (j3 : (tensSym (n / 10 % 10)).getLast? ≠ some l ∨
      (unitsSym (n % 10)).head? ≠ some l) :
    containsSeq (List.replicate k l) (thousandsSym (n / 1000)
      ++ (hundredsSym (n / 100 % 10) ++ (tensSym (n / 10 % 10)
        ++ unitsSym (n % 10)))) = false := by
  apply containsSeq_append_run hk hT ?_ j1
  apply containsSeq_append_run hk hH ?_ j2
  exact containsSeq_append_run hk hTe hU j3

/-- No forbidden run occurs in the block encoding of a range value. -/
theorem noForbidden_blocks {n : Nat} (h2 : n ≤ 3999) :
    ∀ f ∈ FORBIDDEN, containsSeq f (thousandsSym (n / 1000)
      ++ (hundredsSym (n / 100 % 10) ++ (tensSym (n / 10 % 10)
        ++ unitsSym (n % 10)))) = false := by
  have ha : n / 1000 ≤ 3 := by omega
  have hb : n / 100 % 10 ≤ 9 := by omega
  have hc : n / 10 % 10 ≤ 9 := by omega
  have hu : n % 10 ≤ 9 := by omega
  have hRest1 : headOk [67, 68, 88, 76, 73, 86] (hundredsSym (n / 100 % 10)
      ++ (tensSym (n / 10 % 10) ++ unitsSym (n % 10))) = true :=
    headOk_append (headOk_hundreds1 hb)
      (headOk_append (headOk_tens1 hc) (headOk_units1 hu))
  have hRest2 : headOk [88, 76, 73, 86]
      (tensSym (n / 10 % 10) ++ unitsSym (n % 10)) = true :=
    headOk_append (headOk_tens2 hc) (headOk_units2 hu)
  have hRest3 : headOk [73, 86] (unitsSym (n % 10)) = true := headOk_units3 hu
  have hLT67 : (thousandsSym (n / 1000)).getLast? ≠ some 67 := by
    rcases lastT ha with h | h <;> rw [h] <;> decide
  have hLT68 : (thousandsSym (n / 1000)).getLast? ≠ some 68 := by
    rcases lastT ha with h | h <;> rw [h] <;> decide
  have hLT88 : (thousandsSym (n / 1000)).getLast? ≠ some 88 := by
    rcases lastT ha with h | h <;> rw [h] <;> decide
  have hLT76 : (thousandsSym (n / 1000)).getLast? ≠ some 76 := by
    rcases lastT ha with h | h <;> rw [h] <;> decide
  have hLT73 : (thousandsSym (n / 1000)).getLast? ≠ some 73 := by
    rcases lastT ha with h | h <;> rw [h] <;> decide
  have hLT86 : (thousandsSym (n / 1000)).getLast? ≠ some 86 := by
    rcases lastT ha with h | h <;> rw [h] <;> decide
  have hLH88 : (hundredsSym (n / 100 % 10)).getLast? ≠ some 88 := by
    rcases lastH hb with h | h | h | h <;> rw [h] <;> decide
  have hLH76 : (hundredsSym (n / 100 % 10)).getLast? ≠ some 76 := by
    rcases lastH hb with h | h | h | h <;> rw [h] <;> decide
  have hLH73 : (hundredsSym (n / 100 % 10)).getLast? ≠ some 73 := by
    rcases lastH hb with h | h | h | h <;> rw [h] <;> decide
  have hLH86 : (hundredsSym (n / 100 % 10)).getLast? ≠ some 86 := by
    rcases lastH hb with h | h | h | h <;> rw [h] <;> decide
  have hLTe73 : (tensSym (n / 10 % 10)).getLast? ≠ some 73 := by
    rcases lastTe hc with h | h | h | h <;> rw [h] <;> decide
  have hLTe86 : (tensSym (n / 10 % 10)).getLast? ≠ some 86 := by
    rcases lastTe hc with h | h | h | h <;> rw [h] <;> decide
  intro f hf
  fin_cases hf
  · rw [show str "IIII" = List.replicate 4 73 from by decide]
    refine run_blocks (by omega) ?_ ?_ ?_ ?_ (Or.inl hLT73) (Or.inl hLH73)
      (Or.inl hLTe73)
    · have h := noForbidden_T ha (str "IIII") (by decide)
      rwa [show str "IIII" = List.replicate 4 73 from by decide] at h
    · have h := noForbidden_H hb (str "IIII") (by decide)
      rwa [show str "IIII" = List.replicate 4 73 from by decide] at h
    · have h := noForbidden_Te hc (str "IIII") (by decide)
      rwa [show str "IIII" = List.replicate 4 73 from by decide] at h
    · have h := noForbidden_U hu (str "IIII") (by decide)
      rwa [show str "IIII" = List.replicate 4 73 from by decide] at h
  · rw [show str "VV" = List.replicate 2 86 from by decide]
    refine run_blocks (by omega) ?_ ?_ ?_ ?_ (Or.inl hLT86) (Or.inl hLH86)
      (Or.inl hLTe86)
    · have h := noForbidden_T ha (str "VV") (by decide)
      rwa [show str "VV" = List.replicate 2 86 from by decide] at h
    · have h := noForbidden_H hb (str "VV") (by decide)
      rwa [show str "VV" = List.replicate 2 86 from by decide] at h
    · have h := noForbidden_Te hc (str "VV") (by decide)
      rwa [show str "VV" = List.replicate 2 86 from by decide] at h
    · have h := noForbidden_U hu (str "VV") (by decide)
      rwa [show str "VV" = List.replicate 2 86 from by decide] at h
  · rw [show str "XXXX" = List.replicate 4 88 from by decide]
    refine run_blocks (by omega) ?_ ?_ ?_ ?_ (Or.inl hLT88) (Or.inl hLH88)
      (Or.inr (head_ne_of_headOk hRest3 (by decide)))
    · have h := noForbidden_T ha (str "XXXX") (by decide)
      rwa [show str "XXXX" = List.replicate 4 88 from by decide] at h
    · have h := noForbidden_H hb (str "XXXX") (by decide)
      rwa [show str "XXXX" = List.replicate 4 88 from by decide] at h
    · have h := noForbidden_Te hc (str "XXXX") (by decide)
      rwa [show str "XXXX" = List.replicate 4 88 from by decide] at h
    · have h := noForbidden_U hu (str "XXXX") (by decide)
      rwa [show str "XXXX" = List.replicate 4 88 from by decide] at h
  · rw [show str "LL" = List.replicate 2 76 from by decide]
    refine run_blocks (by omega) ?_ ?_ ?_ ?_ (Or.inl hLT76) (Or.inl hLH76)
      (Or.inr (head_ne_of_headOk hRest3 (by decide)))
    · have h := noForbidden_T ha (str "LL") (by decide)
      rwa [show str "LL" = List.replicate 2 76 from by decide] at h
    · have h := noForbidden_H hb (str "LL") (by decide)
      rwa [show str "LL" = List.replicate 2 76 from by decide] at h
    · have h := noForbidden_Te hc (str "LL") (by decide)
      rwa [show str "LL" = List.replicate 2 76 from by decide] at h
    · have h := noForbidden_U hu (str "LL") (by decide)
      rwa [show str "LL" = List.replicate 2 76 from by decide] at h
  · rw [show str "CCCC" = List.replicate 4 67 from by decide]
    refine run_blocks (by omega) ?_ ?_ ?_ ?_ (Or.inl hLT67)
      (Or.inr (head_ne_of_headOk hRest2 (by decide)))
      (Or.inr (head_ne_of_headOk hRest3 (by decide)))
    · have h := noForbidden_T ha (str "CCCC") (by decide)
      rwa [show str "CCCC" = List.replicate 4 67 from by decide] at h
    · have h := noForbidden_H hb (str "CCCC") (by decide)
      rwa [show str "CCCC" = List.replicate 4 67 from by decide] at h
    · have h := noForbidden_Te hc (str "CCCC") (by decide)
      rwa [show str "CCCC" = List.replicate 4 67 from by decide] at h
    · have h := noForbidden_U hu (str "CCCC") (by decide)
      rwa [show str "CCCC" = List.replicate 4 67 from by decide] at h
  · rw [show str "DD" = List.replicate 2 68 from by decide]
    refine run_blocks (by omega) ?_ ?_ ?_ ?_ (Or.inl hLT68)
      (Or.inr (head_ne_of_headOk hRest2 (by decide)))
      (Or.inr (head_ne_of_headOk hRest3 (by decide)))
    · have h := noForbidden_T ha (str "DD") (by decide)
      rwa [show str "DD" = List.replicate 2 68 from by decide] at h
    · have h := noForbidden_H hb (str "DD") (by decide)
      rwa [show str "DD" = List.replicate 2 68 from by decide] at h
    · have h := noForbidden_Te hc (str "DD") (by decide)
      rwa [show str "DD" = List.replicate 2 68 from by decide] at h
    · have h := noForbidden_U hu (str "DD") (by decide)
      rwa [show str "DD" = List.replicate 2 68 from by decide] at h
  · rw [show str "MMMM" = List.replicate 4 77 from by decide]
    refine run_blocks (by omega) ?_ ?_ ?_ ?_
      (Or.inr (head_ne_of_headOk hRest1 (by decide)))
      (Or.inr (head_ne_of_headOk hRest2 (by decide)))
      (Or.inr (head_ne_of_headOk hRest3 (by decide)))
    · have h := noForbidden_T ha (str "MMMM") (by decide)
      rwa [show str "MMMM" = List.replicate 4 77 from by decide] at h
    · have h := noForbidden_H hb (str "MMMM") (by decide)
      rwa [show str "MMMM" = List.replicate 4 77 from by decide] at h
    · have h := noForbidden_Te hc (str "MMMM") (by decide)
      rwa [show str "MMMM" = List.replicate 4 77 from by decide] at h
    · have h := noForbidden_U hu (str "MMMM") (by decide)
      rwa [show str "MMMM" = List.replicate 4 77 from by decide] at h

/-- C1: for every n with MIN_VALUE ≤ n ≤ MAX_VALUE, `integer_to_roman n`
succeeds and `roman_to_integer` maps its output back to exactly n. -/
theorem C1_round_trip :
    ∀ n : Nat, MIN_VALUE ≤ n → n ≤ MAX_VALUE →
      ∃ s, integer_to_roman n = .ok s ∧ roman_to_integer s = .ok n := by
  intro n h1 h2
  exact ⟨_, encode_blocks h1 h2, decode_encode_blocks h1 h2⟩

theorem C1_round_trip_witness :
    ∃ s, integer_to_roman 1142 = .ok s ∧ roman_to_integer s = .ok 1142 :=
  C1_round_trip 1142 (by decide) (by decide)

/-- C8: for every n with MIN_VALUE ≤ n ≤ MAX_VALUE, the encoding of n
contains none of the forbidden subsequences ("IIII", "VV", "XXXX", "LL",
"CCCC", "DD", "MMMM") and consists only of the seven Roman letters. -/
theorem C8_canonical_form :
    ∀ n : Nat, MIN_VALUE ≤ n → n ≤ MAX_VALUE →
      ∃ s, integer_to_roman n = .ok s ∧
        (∀ f ∈ FORBIDDEN, containsSeq f s = false) ∧
        (∀ ch ∈ s, romanChars.contains ch = true) := by
  intro n h1 h2
  exact ⟨_, encode_blocks h1 h2, noForbidden_blocks h2,
    List.all_eq_true.mp (allRoman_blocks h2)⟩

theorem C8_canonical_form_witness :
    ∃ s, integer_to_roman 3888 = .ok s ∧
      (∀ f ∈ FORBIDDEN, containsSeq f s = false) ∧
      (∀ ch ∈ s, romanChars.contains ch = true) :=
  C8_canonical_form 3888 (by decide) (by decide)

theorem thousandsDig_len {a : Nat} (ha : a ≤ 3) : (thousandsDig a).length ≤ 3 := by
  interval_cases a <;> decide

theorem hundredsDig_len {b : Nat} (hb : b ≤ 9) : (hundredsDig b).length ≤ 4 := by
  interval_cases b <;> decide

theorem tensDig_len {c : Nat} (hc : c ≤ 9) : (tensDig c).length ≤ 4 := by
  interval_cases c <;> decide

theorem unitsDig_len {u : Nat} (hu : u ≤ 9) : (unitsDig u).length ≤ 4 := by
  interval_cases u <;> decide

/-- C10: the greedy extraction always makes progress — for positive
remainder the extractor returns the largest digit not exceeding it and the
remainder strictly decreases — and over the conversion range the extraction
takes at most 15 steps and ends with remainder 0 (the digits sum back to
the value). -/
theorem C10_greedy_terminates :
    (∀ seed : Nat, 0 < seed →
      ∃ d, digit_extractor seed = some (d, seed - d) ∧ 1 ≤ d ∧ d ≤ seed ∧
        seed - d < seed ∧ ∀ x ∈ DIGITS, x ≤ seed → x ≤ d) ∧
    (∀ v : Nat, MIN_VALUE ≤ v → v ≤ MAX_VALUE →
      (extractDigits v).length ≤ 15 ∧
        (extractDigits v).foldl (fun a b => a + b) 0 = v) := by
  constructor
  · intro seed hpos
    obtain ⟨d, hd, h1, h2, h3⟩ := digit_extractor_progress seed hpos
    exact ⟨d, hd, h1, h2, by omega, h3⟩
  · intro v h1 h2
    refine ⟨?_, extractDigits_sum v⟩
    have h2' : v ≤ 3999 := h2
    rw [extractDigits_blocks h2', List.length_append, List.length_append,
      List.length_append]
    have l1 := thousandsDig_len (a := v / 1000) (by omega)
    have l2 := hundredsDig_len (b := v / 100 % 10) (by omega)
    have l3 := tensDig_len (c := v / 10 % 10) (by omega)
    have l4 := unitsDig_len (u := v % 10) (by omega)
    omega

theorem C10_greedy_terminates_witness :
    (∃ d, digit_extractor 3888 = some (d, 3888 - d) ∧ 1 ≤ d ∧ d ≤ 3888 ∧
      3888 - d < 3888 ∧ ∀ x ∈ DIGITS, x ≤ 3888 → x ≤ d) ∧
    ((extractDigits 3888).length ≤ 15 ∧
      (extractDigits 3888).foldl (fun a b => a + b) 0 = 3888) :=
  ⟨C10_greedy_terminates.1 3888 (by decide),
    C10_greedy_terminates.2 3888 (by decide) (by decide)⟩

theorem C7_format_errors_witness :
    roman_to_integer (str "AB") = .error (.Unparsable (normalize_numeral (str "AB"))) :=
  (C7_format_errors (str "AB")).2 (by decide) (by decide)

end Numeris
